import Mathlib

/-
Verification development for the food-logging application.

The repository is a React Native app whose only stateful core is a CRUD
layer over a single JSON document of food records.  We shallowly embed
that layer: records become a Lean structure, the JSON document becomes an
inductive tree of JSON values, the filesystem state relevant to the store
becomes an explicit record, and every handler from the source becomes a
pure Lean function on those states.  External inputs of the handlers
(the timestamp from Date.now, injected filesystem faults) become explicit
parameters.
-/

namespace FoodApp

/-- JSON values, as produced by JSON.stringify and consumed by JSON.parse.
Only the fragment the application uses is modelled: strings, arrays,
objects (ordered key-value lists) and null. -/
inductive Json where
  | str : String → Json
  | arr : List Json → Json
  | obj : List (String × Json) → Json
  | null : Json

/-- The FoodData record from food-form.tsx.  All nutrition values are
numeric-as-text fields, exactly as in the source interface.  The id and
imageUri fields are optional there (`id?: string`, `imageUri?: string`). -/
structure FoodData where
  id : Option String
  foodName : String
  category : String
  calories : String
  weight : String
  protein : String
  carbs : String
  fat : String
  fiber : String
  imageUri : Option String
deriving DecidableEq, Repr

/-- Model of FileSystem.documentDirectory, an external device path. -/
def documentDirectory : String := "file:///data/"

/-- DATA_DIRECTORY from food-form.tsx. -/
def DATA_DIRECTORY : String := documentDirectory ++ "foods/"

/-- FOODS_FILE_PATH from food-form.tsx. -/
def FOODS_FILE_PATH : String := DATA_DIRECTORY ++ "foods.json"

/-- JSON.stringify of one record: the object literal fields in insertion
order; properties whose value is undefined (a missing id or imageUri) are
omitted, as JSON.stringify does. -/
def encodeFood (f : FoodData) : Json :=
  Json.obj
    ((match f.id with
      | some s => [("id", Json.str s)]
      | none => []) ++
     [("foodName", Json.str f.foodName),
      ("category", Json.str f.category),
      ("calories", Json.str f.calories),
      ("weight", Json.str f.weight),
      ("protein", Json.str f.protein),
      ("carbs", Json.str f.carbs),
      ("fat", Json.str f.fat),
      ("fiber", Json.str f.fiber)] ++
     (match f.imageUri with
      | some s => [("imageUri", Json.str s)]
      | none => []))

/-- JSON.stringify of the whole collection: a JSON array of records. -/
def encodeFoods (l : List FoodData) : Json :=
  Json.arr (l.map encodeFood)

/-- First value bound to a key in a JSON object (JS property lookup). -/
def lookupKey (k : String) : List (String × Json) → Option Json
  | [] => none
  | (k', v) :: rest => if k' = k then some v else lookupKey k rest

/-- Read a key as a string value, if present with that shape. -/
def decodeOptStr (k : String) (kvs : List (String × Json)) : Option String :=
  match lookupKey k kvs with
  | some (Json.str s) => some s
  | _ => none

/-- The denotation of a JSON value as a FoodData record.  The source casts
the output of JSON.parse to FoodData without validation; this decoder
characterises the well-formed objects for which that cast is honest, and
recovers the fields the application reads. -/
def decodeFood (j : Json) : Option FoodData :=
  match j with
  | Json.obj kvs =>
    match decodeOptStr "foodName" kvs, decodeOptStr "category" kvs,
          decodeOptStr "calories" kvs, decodeOptStr "weight" kvs,
          decodeOptStr "protein" kvs, decodeOptStr "carbs" kvs,
          decodeOptStr "fat" kvs, decodeOptStr "fiber" kvs with
    | some n, some c, some cal, some w, some p, some cb, some ft, some fb =>
      some { id := decodeOptStr "id" kvs, foodName := n, category := c,
             calories := cal, weight := w, protein := p, carbs := cb,
             fat := ft, fiber := fb, imageUri := decodeOptStr "imageUri" kvs }
    | _, _, _, _, _, _, _, _ => none
  | _ => none

/-- Decode a list of JSON values elementwise, failing if any element
fails. -/
def decodeFoodList : List Json → Option (List FoodData)
  | [] => some []
  | j :: rest =>
    match decodeFood j, decodeFoodList rest with
    | some f, some fs => some (f :: fs)
    | _, _ => none

/-- The denotation of a JSON document as a record collection: a
well-formed document is a JSON array of well-formed records. -/
def decodeFoods (j : Json) : Option (List FoodData) :=
  match j with
  | Json.arr js => decodeFoodList js
  | _ => none

/-! ### JavaScript string primitives used by the handlers -/

/-- Whitespace for the JS String trim and Number conversions (space,
tab, line terminators, and other common whitespace). -/
def isJsWhitespace (c : Char) : Bool :=
  c = ' ' || c = '\t' || c = '\n' || c = '\r' || c = '\x0b' || c = '\x0c'

/-- Model of the JS String trim method: strip leading and trailing
whitespace. -/
def jsTrim (s : String) : String :=
  String.mk (((s.data.dropWhile isJsWhitespace).reverse.dropWhile isJsWhitespace).reverse)

/-- ASCII lowercasing of one character, the effect of the JS
toLowerCase method on the character range the application uses. -/
def jsCharToLower (c : Char) : Char :=
  if 'A' ≤ c ∧ c ≤ 'Z' then Char.ofNat (c.toNat + 32) else c

/-- Model of the JS String toLowerCase method. -/
def jsToLower (s : String) : String :=
  String.mk (s.data.map jsCharToLower)

/-- Does the character list s start with the character list pat
(JS String startsWith at position 0)? -/
def jsStartsWith : List Char → List Char → Bool
  | _, [] => true
  | [], _ :: _ => false
  | c :: s, p :: ps => (c = p) && jsStartsWith s ps

/-- Occurrence search underlying the JS String includes method: scan
every suffix of s for pat at its front. -/
def jsIncludesAux (pat : List Char) : List Char → Bool
  | [] => pat.isEmpty
  | c :: s => jsStartsWith (c :: s) pat || jsIncludesAux pat s

/-- Model of the JS String includes method: substring containment. -/
def jsIncludes (s pat : String) : Bool :=
  jsIncludesAux pat.data s.data

/-- Split off the longest run of leading decimal digits. -/
def spanDigits : List Char → List Char × List Char
  | [] => ([], [])
  | c :: cs =>
    if c.isDigit then
      let (d, r) := spanDigits cs
      (c :: d, r)
    else ([], c :: cs)

/-- Strip one optional leading sign. -/
def stripSign : List Char → List Char
  | '+' :: cs => cs
  | '-' :: cs => cs
  | cs => cs

/-- Accept an optional exponent part: e or E, optional sign, at least
one digit. -/
def expPartOk : List Char → Bool
  | [] => true
  | c :: cs =>
    (c = 'e' || c = 'E') &&
      (let ds := stripSign cs
       !ds.isEmpty && ds.all (·.isDigit))

/-- Accept an unsigned decimal mantissa with optional fraction and
exponent: digits, digits.digits, .digits, digits. -- each optionally
followed by an exponent part. -/
def mantissaOk (cs : List Char) : Bool :=
  let (intPart, rest) := spanDigits cs
  match rest with
  | '.' :: rest2 =>
    let (fracPart, rest3) := spanDigits rest2
    (!intPart.isEmpty || !fracPart.isEmpty) && expPartOk rest3
  | _ => !intPart.isEmpty && expPartOk rest

/-- Accept a non-decimal integer literal: 0x, 0X, 0o, 0O, 0b, 0B
followed by at least one digit of the base (the digits themselves are
checked loosely as alphanumeric, enough for the numeric strings this
application meets). -/
def nonDecIntOk (cs : List Char) : Bool :=
  match cs with
  | '0' :: b :: ds =>
    (b = 'x' || b = 'X' || b = 'o' || b = 'O' || b = 'b' || b = 'B') &&
      !ds.isEmpty && ds.all (·.isAlphanum)
  | _ => false

/-- Model of the JS predicate !isNaN(Number(s)) on strings: the string,
once trimmed, is empty (Number gives 0), or is an optionally signed
decimal literal or Infinity, or an unsigned non-decimal integer
literal. -/
def jsNumberOk (s : String) : Bool :=
  let cs := (jsTrim s).data
  cs.isEmpty ||
    (let body := stripSign cs
     body = "Infinity".data || mantissaOk body) ||
    nonDecIntOk cs

/-! ### The form controller (food-form.tsx) -/

/-- The field state of the form screen at the moment handleSubmit or
handleDelete runs: the parsed initialData navigation parameter plus the
ten text-input states.  imageUri is the string state (empty when no
image was picked). -/
structure FormState where
  initialData : Option FoodData
  foodName : String
  category : String
  calories : String
  weight : String
  protein : String
  carbs : String
  fat : String
  fiber : String
  imageUri : String
deriving DecidableEq, Repr

/-- validateForm from food-form.tsx: the trimmed name must be non-empty,
and the weight must be non-empty and convert to a number. -/
def validateForm (fs : FormState) : Bool :=
  decide (jsTrim fs.foodName ≠ "") && decide (fs.weight ≠ "") && jsNumberOk fs.weight

/-- The truthiness test the source applies to the optional chain
initialData?.id: it yields an id only when initialData is present and
carries a non-empty id string (undefined and the empty string are both
falsy in JS). -/
def editId (fs : FormState) : Option String :=
  match fs.initialData with
  | none => none
  | some d =>
    match d.id with
    | none => none
    | some s => if s = "" then none else some s

/-- The JS idiom s or-else dflt on strings: the empty string falls back
to the default. -/
def strOr (s dflt : String) : String :=
  if s = "" then dflt else s

/-- The newFood record built by handleSubmit: id is initialData?.id or
else the fresh Date.now string; the name is trimmed; every nutrition
field defaults to the literal zero text when empty; when an image was
picked its stored copy path replaces the picked location (the copy is
named from the record id and a second Date.now reading). -/
def buildRecord (fs : FormState) (newId now : String) : FoodData :=
  let rid := (editId fs).getD newId
  { id := some rid
    foodName := jsTrim fs.foodName
    category := fs.category
    calories := strOr fs.calories "0"
    weight := strOr fs.weight "0"
    protein := strOr fs.protein "0"
    carbs := strOr fs.carbs "0"
    fat := strOr fs.fat "0"
    fiber := strOr fs.fiber "0"
    imageUri := some (if fs.imageUri = "" then fs.imageUri
                      else DATA_DIRECTORY ++ rid ++ "_" ++ now ++ ".jpg") }

/-- JS Array findIndex: index of the first element satisfying p, or -1. -/
def findIndex {α : Type} (p : α → Bool) : List α → Int
  | [] => -1
  | x :: xs =>
    if p x then 0
    else
      let r := findIndex p xs
      if r = -1 then -1 else r + 1

/-- The edit branch of handleSubmit: find the index of the record whose
id equals the edited id and overwrite that slot; when the index is -1
the array is left as it is. -/
def replaceById (foods : List FoodData) (eid : String) (newFood : FoodData) : List FoodData :=
  let index := findIndex (fun food => decide (food.id = some eid)) foods
  if index ≠ -1 then foods.set index.toNat newFood else foods

/-- The collection transformation performed by a submission: none when
validation rejects the input (the handler returns before any storage
access); otherwise the loaded collection with the matching record
replaced (edit mode) or the new record pushed (create mode), which is
exactly the argument then given to saveFoods.  newId and now are the two
Date.now readings. -/
def handleSubmitList (fs : FormState) (newId now : String)
    (foods : List FoodData) : Option (List FoodData) :=
  if validateForm fs then
    let newFood := buildRecord fs newId now
    match editId fs with
    | some eid => some (replaceById foods eid newFood)
    | none => some (foods ++ [newFood])
  else none

/-- The collection transformation performed by handleDelete once the
user confirms: keep exactly the records whose id differs from the
deleted one. -/
def handleDeleteList (did : String) (foods : List FoodData) : List FoodData :=
  foods.filter (fun food => decide (food.id ≠ some did))

/-! ### The record store over an explicit filesystem state -/

/-- The slice of the device filesystem the record store touches: whether
DATA_DIRECTORY exists, and the content of the document at
FOODS_FILE_PATH (none when the file does not exist). -/
structure FsState where
  dirExists : Bool
  foodsFile : Option Json

/-- ensureDirectoryExists from food-form.tsx: create DATA_DIRECTORY when
missing. -/
def ensureDirectoryExists (st : FsState) : FsState :=
  { st with dirExists := true }

/-- loadFoods from food-form.tsx.  The readOk flag injects a failure of
the underlying readAsStringAsync call; the catch block swallows it and
yields the empty collection.  When the document is missing an empty
array document is written and the empty collection returned; otherwise
the document content is parsed and returned (its denotation as records,
empty when malformed, since a parse failure is also caught). -/
def loadFoods (readOk : Bool) (st : FsState) : List FoodData × FsState :=
  let st1 := ensureDirectoryExists st
  match st1.foodsFile with
  | none => ([], { st1 with foodsFile := some (encodeFoods []) })
  | some doc =>
    if readOk then ((decodeFoods doc).getD [], st1) else ([], st1)

/-- saveFoods from food-form.tsx: ensure the directory, then overwrite
the document with the serialized collection.  The writeOk flag injects a
failure of the underlying writeAsStringAsync call; the catch block logs
and re-throws, so the failure reaches the caller, modelled as none. -/
def saveFoods (writeOk : Bool) (foods : List FoodData) (st : FsState) : Option FsState :=
  let st1 := ensureDirectoryExists st
  if writeOk then some { st1 with foodsFile := some (encodeFoods foods) }
  else none

/-- handleSubmit from food-form.tsx over the filesystem state, with no
injected filesystem fault: validate, and on success load the collection,
apply the submission and save; on validation failure return before any
storage access. -/
def handleSubmit (fs : FormState) (newId now : String) (st : FsState) : FsState :=
  match handleSubmitList fs newId now (loadFoods true st).1 with
  | none => st
  | some updated =>
    match saveFoods true updated (loadFoods true st).2 with
    | some st2 => st2
    | none => (loadFoods true st).2

/-- The confirmed branch of handleDelete from food-form.tsx over the
filesystem state, with no injected fault: load, filter out the record,
save.  When the form has no truthy id the handler returns at once. -/
def handleDelete (fs : FormState) (st : FsState) : FsState :=
  match editId fs with
  | none => st
  | some did =>
    match saveFoods true (handleDeleteList did (loadFoods true st).1) (loadFoods true st).2 with
    | some st2 => st2
    | none => (loadFoods true st).2

/-! ### The list and search screen (CategoryScreen) -/

namespace CategoryScreen

/-- loadFoods of the list screen: if the document does not exist return
the empty collection without writing anything; otherwise parse and
return it.  A read failure is swallowed into the empty collection.  Note
this variant never creates the document, unlike the form variant. -/
def loadFoods (readOk : Bool) (st : FsState) : List FoodData × FsState :=
  match st.foodsFile with
  | none => ([], st)
  | some doc =>
    if readOk then ((decodeFoods doc).getD [], st) else ([], st)

/-- filteredFoods of the list screen: keep the records whose lowercased
name includes the lowercased search text. -/
def filteredFoods (foods : List FoodData) (searchQuery : String) : List FoodData :=
  foods.filter (fun food => jsIncludes (jsToLower food.foodName) (jsToLower searchQuery))

/-- deleteFood of the list screen: reload, drop the record with the
given id, and write the serialized result back (the write path repeats
the document path inline). -/
def deleteFood (id : String) (st : FsState) : FsState :=
  let currentFoods := (loadFoods true st).1
  let updatedFoods := currentFoods.filter (fun food => decide (food.id ≠ some id))
  { st with foodsFile := some (encodeFoods updatedFoods) }

end CategoryScreen

/-! ### Spec-side definition for the search refinement claim -/

/-- Spec-side matching predicate, written from the spec words: a record
matches the current search text if, case-insensitively, its name
contains the text as a substring.  Stated as containment of the
lowercased text in the lowercased name, with list containment expressed
by the standard contiguous-sublist relation. -/
def specMatchesSearch (name searchText : String) : Prop :=
  (jsToLower searchText).data <:+: (jsToLower name).data

/-! ### Concrete sample inputs used by witnesses and counterexamples -/

/-- A sample stored record with the given id and name. -/
def mkFood (i name : String) : FoodData :=
  { id := some i, foodName := name, category := "主食", calories := "50",
    weight := "100", protein := "1", carbs := "2", fat := "3", fiber := "4",
    imageUri := none }

/-- A sample form state in create mode (no initialData). -/
def mkCreateForm (name w : String) : FormState :=
  { initialData := none, foodName := name, category := "主食", calories := "",
    weight := w, protein := "", carbs := "", fat := "", fiber := "",
    imageUri := "" }

/-- A sample form state in edit mode, opened on the given record. -/
def mkEditForm (d : FoodData) (name w : String) : FormState :=
  { initialData := some d, foodName := name, category := "主食", calories := "",
    weight := w, protein := "", carbs := "", fat := "", fiber := "",
    imageUri := "" }

/-- The spec-side search predicate is decidable, so it can appear under
filter in refinement statements. -/
instance (name q : String) : Decidable (specMatchesSearch name q) := by
  unfold specMatchesSearch
  infer_instance

/-! ### Helper lemmas about findIndex and the edit branch -/

theorem findIndex_eq_neg_one {α : Type} (p : α → Bool) (l : List α)
    (h : ∀ x ∈ l, p x = false) : findIndex p l = -1 := by
  induction l with
  | nil => rfl
  | cons x xs ih =>
    have hx : p x = false := h x (List.mem_cons_self x xs)
    have hxs : findIndex p xs = -1 := ih (fun y hy => h y (List.mem_cons_of_mem x hy))
    simp [findIndex, hx, hxs]

theorem findIndex_nonneg_or {α : Type} (p : α → Bool) (l : List α) :
    findIndex p l = -1 ∨ 0 ≤ findIndex p l := by
  induction l with
  | nil => exact Or.inl rfl
  | cons x xs ih =>
    by_cases hx : p x = true
    · right
      simp [findIndex, hx]
    · have hx' : p x = false := by simpa using hx
      rcases ih with h | h
      · left
        simp [findIndex, hx', h]
      · right
        have hne : findIndex p xs ≠ -1 := by omega
        simp only [findIndex, hx', Bool.false_eq_true, if_false, if_neg hne]
        omega

theorem replaceById_nil (eid : String) (n : FoodData) :
    replaceById [] eid n = [] := rfl

theorem replaceById_cons_hit (f : FoodData) (rest : List FoodData) (eid : String)
    (n : FoodData) (h : f.id = some eid) :
    replaceById (f :: rest) eid n = n :: rest := by
  simp [replaceById, findIndex, h]

theorem replaceById_cons_skip (f : FoodData) (rest : List FoodData) (eid : String)
    (n : FoodData) (h : ¬ f.id = some eid) :
    replaceById (f :: rest) eid n = f :: replaceById rest eid n := by
  rcases findIndex_nonneg_or (fun food => decide (food.id = some eid)) rest with hr | hr
  · simp [replaceById, findIndex, h, hr]
  · obtain ⟨k, hk⟩ := Int.eq_ofNat_of_zero_le hr
    have hk1 : ((k : Int)) ≠ -1 := by omega
    have hk2 : ((k : Int) + 1) ≠ -1 := by omega
    have htn : ((k : Int) + 1).toNat = (k : Int).toNat + 1 := by omega
    simp [replaceById, findIndex, h, hk, hk1, hk2, htn]

theorem replaceById_decomp (pre : List FoodData) (old : FoodData) (post : List FoodData)
    (eid : String) (n : FoodData) (hold : old.id = some eid)
    (hpre : ∀ f ∈ pre, f.id ≠ some eid) :
    replaceById (pre ++ old :: post) eid n = pre ++ n :: post := by
  induction pre with
  | nil => simpa using replaceById_cons_hit old post eid n hold
  | cons f pre ih =>
    have hf : ¬ f.id = some eid := hpre f (List.mem_cons_self f pre)
    have hrec := ih (fun g hg => hpre g (List.mem_cons_of_mem f hg))
    rw [List.cons_append, replaceById_cons_skip f (pre ++ old :: post) eid n hf, hrec,
      List.cons_append]

theorem replaceById_not_found (foods : List FoodData) (eid : String) (n : FoodData)
    (h : ∀ f ∈ foods, f.id ≠ some eid) :
    replaceById foods eid n = foods := by
  have hidx : findIndex (fun food => decide (food.id = some eid)) foods = -1 :=
    findIndex_eq_neg_one _ _ (fun x hx => by simp [h x hx])
  simp [replaceById, hidx]

theorem replaceById_map_id (foods : List FoodData) (eid : String) (n : FoodData)
    (hn : n.id = some eid) :
    (replaceById foods eid n).map FoodData.id = foods.map FoodData.id := by
  induction foods with
  | nil => rfl
  | cons f rest ih =>
    by_cases hf : f.id = some eid
    · rw [replaceById_cons_hit f rest eid n hf]
      simp [hn, hf]
    · rw [replaceById_cons_skip f rest eid n hf]
      simp [ih]

/-! ### Helper lemmas about submission -/

theorem buildRecord_id_edit (fs : FormState) (newId now eid : String)
    (heid : editId fs = some eid) : (buildRecord fs newId now).id = some eid := by
  simp [buildRecord, heid]

theorem buildRecord_id_create (fs : FormState) (newId now : String)
    (hnew : editId fs = none) : (buildRecord fs newId now).id = some newId := by
  simp [buildRecord, hnew]

theorem handleSubmitList_create (fs : FormState) (newId now : String)
    (foods : List FoodData) (hval : validateForm fs = true) (hnew : editId fs = none) :
    handleSubmitList fs newId now foods = some (foods ++ [buildRecord fs newId now]) := by
  simp [handleSubmitList, hval, hnew]

theorem handleSubmitList_edit (fs : FormState) (newId now : String)
    (foods : List FoodData) (eid : String)
    (hval : validateForm fs = true) (heid : editId fs = some eid) :
    handleSubmitList fs newId now foods
      = some (replaceById foods eid (buildRecord fs newId now)) := by
  simp [handleSubmitList, hval, heid]

theorem handleSubmitList_invalid (fs : FormState) (newId now : String)
    (foods : List FoodData) (hval : validateForm fs = false) :
    handleSubmitList fs newId now foods = none := by
  simp [handleSubmitList, hval]

theorem validateForm_eq_false (fs : FormState)
    (h : jsTrim fs.foodName = "" ∨ fs.weight = "" ∨ jsNumberOk fs.weight = false) :
    validateForm fs = false := by
  rcases h with h | h | h <;> simp [validateForm, h]

theorem handleSubmit_invalid (fs : FormState) (newId now : String) (st : FsState)
    (hval : validateForm fs = false) :
    handleSubmit fs newId now st = st := by
  simp [handleSubmit, handleSubmitList_invalid fs newId now _ hval]

/-! ### Helper lemmas about deletion -/

theorem handleDeleteList_all_kept (did : String) (foods : List FoodData)
    (h : ∀ f ∈ foods, f.id ≠ some did) : handleDeleteList did foods = foods := by
  rw [handleDeleteList]
  exact List.filter_eq_self.mpr (fun f hf => by simp [h f hf])

theorem handleDeleteList_not_mem (did : String) (foods : List FoodData) :
    ∀ f ∈ handleDeleteList did foods, f.id ≠ some did := by
  intro f hf
  have hmem := (List.mem_filter.mp hf).2
  simpa using hmem

theorem handleDeleteList_decomp (did : String) (pre : List FoodData) (old : FoodData)
    (post : List FoodData) (hold : old.id = some did)
    (hpre : ∀ f ∈ pre, f.id ≠ some did) (hpost : ∀ f ∈ post, f.id ≠ some did) :
    handleDeleteList did (pre ++ old :: post) = pre ++ post := by
  have hkpre : List.filter (fun food => decide (food.id ≠ some did)) pre = pre :=
    List.filter_eq_self.mpr (fun f hf => by simp [hpre f hf])
  have hkpost : List.filter (fun food => decide (food.id ≠ some did)) post = post :=
    List.filter_eq_self.mpr (fun f hf => by simp [hpost f hf])
  rw [handleDeleteList, List.filter_append, List.filter_cons]
  have hcond : (decide (old.id ≠ some did)) = false := by simp [hold]
  rw [hcond]
  simp only [Bool.false_eq_true, if_false]
  rw [hkpre, hkpost]

theorem handleDeleteList_ids_nodup (did : String) (foods : List FoodData)
    (h : (foods.map FoodData.id).Nodup) :
    ((handleDeleteList did foods).map FoodData.id).Nodup :=
  List.Nodup.sublist (List.Sublist.map FoodData.id (List.filter_sublist foods)) h

/-! ### Helper lemmas: JSON round-trip -/

set_option maxRecDepth 4096 in
theorem decodeFood_encodeFood (f : FoodData) : decodeFood (encodeFood f) = some f := by
  rcases f with ⟨id, n, c, cal, w, p, cb, ft, fb, img⟩
  cases id <;> cases img <;> rfl

theorem decodeFoodList_map_encode (l : List FoodData) :
    decodeFoodList (l.map encodeFood) = some l := by
  induction l with
  | nil => rfl
  | cons f rest ih => simp [decodeFoodList, decodeFood_encodeFood, ih]

theorem decodeFoods_encodeFoods (l : List FoodData) :
    decodeFoods (encodeFoods l) = some l := by
  simp [decodeFoods, encodeFoods, decodeFoodList_map_encode]

/-! ### Helper lemmas about the record store -/

theorem loadFoods_of_decode (st : FsState) (doc : Json) (l : List FoodData)
    (hdoc : st.foodsFile = some doc) (hl : decodeFoods doc = some l) :
    loadFoods true st = (l, ensureDirectoryExists st) := by
  simp [loadFoods, ensureDirectoryExists, hdoc, hl]

theorem loadFoods_missing (st : FsState) (hdoc : st.foodsFile = none) :
    loadFoods true st = ([], { dirExists := true, foodsFile := some (encodeFoods []) }) := by
  simp [loadFoods, ensureDirectoryExists, hdoc]

/-! ### Helper lemmas: substring search -/

theorem jsStartsWith_iff (s pat : List Char) : jsStartsWith s pat = true ↔ pat <+: s := by
  induction s generalizing pat with
  | nil =>
    cases pat with
    | nil => simp [jsStartsWith, List.IsPrefix]
    | cons p ps => simp [jsStartsWith, List.IsPrefix]
  | cons c s ih =>
    cases pat with
    | nil => simp [jsStartsWith, List.IsPrefix]
    | cons p ps =>
      simp only [jsStartsWith, Bool.and_eq_true, decide_eq_true_eq, ih,
        List.cons_prefix_cons]
      exact ⟨fun h => ⟨h.1.symm, h.2⟩, fun h => ⟨h.1.symm, h.2⟩⟩

theorem substr_cons_iff (pat : List Char) (c : Char) (s : List Char) :
    pat <:+: c :: s ↔ pat <+: c :: s ∨ pat <:+: s := by
  constructor
  · rintro ⟨u, v, huv⟩
    cases u with
    | nil =>
      left
      exact ⟨v, by simpa using huv⟩
    | cons a u =>
      right
      rw [List.cons_append, List.cons_append] at huv
      have h2 := (List.cons.injEq a _ c s).mp huv
      exact ⟨u, v, by rw [List.append_assoc] at h2 ⊢; exact h2.2⟩
  · rintro (⟨t, ht⟩ | ⟨u, v, huv⟩)
    · exact ⟨[], t, by simpa using ht⟩
    · exact ⟨c :: u, v, by simp [← huv]⟩

theorem jsIncludesAux_iff (pat s : List Char) :
    jsIncludesAux pat s = true ↔ pat <:+: s := by
  induction s with
  | nil =>
    cases pat with
    | nil =>
      simp only [jsIncludesAux, List.isEmpty_nil, true_iff]
      exact ⟨[], [], rfl⟩
    | cons p ps =>
      simp only [jsIncludesAux, List.isEmpty_cons, Bool.false_eq_true, false_iff]
      rintro ⟨u, v, huv⟩
      simp [List.append_eq_nil] at huv
  | cons c s ih =>
    rw [jsIncludesAux, substr_cons_iff, Bool.or_eq_true, jsStartsWith_iff, ih]

theorem jsIncludes_iff (s pat : String) :
    jsIncludes s pat = true ↔ pat.data <:+: s.data := by
  rw [jsIncludes, jsIncludesAux_iff]

theorem jsIncludes_empty (s : String) : jsIncludes s "" = true := by
  rw [jsIncludes_iff]
  exact ⟨[], s.data, by simp⟩

/-! ### Claim theorems -/

/-- Claim C1, counterexample.  The claim asserts that for every
pre-existing collection the newly minted id is unique against all
pre-existing ids.  The minted id is just the Date.now reading, which the
code never checks for freshness: when the collection already holds a
record whose id equals that reading, the appended record duplicates it.
Concretely, submitting a valid create form at timestamp 7 over a
collection with a record of id 7 appends a record whose id is already
present. -/
theorem C1_claim_cex :
    handleSubmitList (mkCreateForm "Pie" "100") "7" "7" [mkFood "7" "Apple"]
      = some ([mkFood "7" "Apple"] ++ [buildRecord (mkCreateForm "Pie" "100") "7" "7"]) ∧
    (buildRecord (mkCreateForm "Pie" "100") "7" "7").id
      ∈ List.map FoodData.id [mkFood "7" "Apple"] := by
  decide

/-- Claim C1, amended.  For every pre-existing collection and every
valid form input (non-empty trimmed name, numeric weight) submitted with
no existing id, the submit operation appends exactly one record carrying
the minted id, so the saved collection has the old size plus one; the
minted id is unique against all pre-existing ids whenever the minted
timestamp string is not already among them (a freshness condition the
code itself does not enforce). -/
theorem C1_amended (fs : FormState) (newId now : String) (foods : List FoodData)
    (hval : validateForm fs = true) (hnew : editId fs = none) :
    handleSubmitList fs newId now foods = some (foods ++ [buildRecord fs newId now]) ∧
    (foods ++ [buildRecord fs newId now]).length = foods.length + 1 ∧
    (buildRecord fs newId now).id = some newId ∧
    (some newId ∉ foods.map FoodData.id →
      ∀ f ∈ foods, f.id ≠ (buildRecord fs newId now).id) := by
  refine ⟨handleSubmitList_create fs newId now foods hval hnew, by simp,
    buildRecord_id_create fs newId now hnew, ?_⟩
  intro hfresh f hf heq
  apply hfresh
  rw [buildRecord_id_create fs newId now hnew] at heq
  rw [← heq]
  exact List.mem_map_of_mem FoodData.id hf

/-- Claim C1, witness for the amended theorem at a concrete input. -/
theorem C1_witness :
    handleSubmitList (mkCreateForm "Pie" "100") "9" "9" [mkFood "1" "Apple"]
      = some ([mkFood "1" "Apple"] ++ [buildRecord (mkCreateForm "Pie" "100") "9" "9"]) ∧
    (buildRecord (mkCreateForm "Pie" "100") "9" "9").id = some "9" :=
  ⟨(C1_amended (mkCreateForm "Pie" "100") "9" "9" [mkFood "1" "Apple"]
      (by decide) (by decide)).1,
   (C1_amended (mkCreateForm "Pie" "100") "9" "9" [mkFood "1" "Apple"]
      (by decide) (by decide)).2.2.1⟩

/-- Claim C2: for every collection in which exactly one record bears the
supplied edit id, a valid submission in edit mode saves the collection
with that record replaced by the record built from the form (whose id is
the supplied id) and every other record untouched, so the size is
unchanged. -/
theorem C2_edit_replaces (fs : FormState) (newId now eid : String)
    (pre post : List FoodData) (old : FoodData)
    (hval : validateForm fs = true) (heid : editId fs = some eid)
    (hold : old.id = some eid)
    (hpre : ∀ f ∈ pre, f.id ≠ some eid) (_hpost : ∀ f ∈ post, f.id ≠ some eid) :
    handleSubmitList fs newId now (pre ++ old :: post)
      = some (pre ++ buildRecord fs newId now :: post) ∧
    (pre ++ buildRecord fs newId now :: post).length = (pre ++ old :: post).length ∧
    (buildRecord fs newId now).id = some eid := by
  refine ⟨?_, by simp, buildRecord_id_edit fs newId now eid heid⟩
  rw [handleSubmitList_edit fs newId now _ eid hval heid,
    replaceById_decomp pre old post eid _ hold hpre]

/-- Claim C2, witness at a concrete input. -/
theorem C2_witness :
    handleSubmitList (mkEditForm (mkFood "5" "Apple") "Pie" "120") "9" "9"
        ([mkFood "1" "A"] ++ mkFood "5" "Apple" :: [mkFood "2" "B"])
      = some ([mkFood "1" "A"]
          ++ buildRecord (mkEditForm (mkFood "5" "Apple") "Pie" "120") "9" "9"
          :: [mkFood "2" "B"]) :=
  (C2_edit_replaces (mkEditForm (mkFood "5" "Apple") "Pie" "120") "9" "9" "5"
    [mkFood "1" "A"] [mkFood "2" "B"] (mkFood "5" "Apple")
    (by decide) (by decide) (by decide) (by decide) (by decide)).1

/-- Claim C3, counterexample.  The claim quantifies over every
collection and every record id; for an id that no record bears the
delete operation leaves the collection as it is, so the size does not
decrease by one.  Concretely, deleting id 1 from the empty collection
returns the empty collection. -/
theorem C3_claim_cex :
    handleDeleteList "1" ([] : List FoodData) = [] ∧
    ¬ ((handleDeleteList "1" ([] : List FoodData)).length + 1
        = ([] : List FoodData).length) := by
  decide

/-- Claim C3, amended.  For every collection in which exactly one record
bears the given id, the delete operation removes exactly that record:
the saved collection is the rest in order, its size is the old size
minus one, and no remaining record has that id.  The same removal is
performed by the list-screen delete path over the stored document. -/
theorem C3_amended (did : String) (pre post : List FoodData) (old : FoodData)
    (hold : old.id = some did)
    (hpre : ∀ f ∈ pre, f.id ≠ some did) (hpost : ∀ f ∈ post, f.id ≠ some did) :
    handleDeleteList did (pre ++ old :: post) = pre ++ post ∧
    (handleDeleteList did (pre ++ old :: post)).length + 1
      = (pre ++ old :: post).length ∧
    (∀ f ∈ handleDeleteList did (pre ++ old :: post), f.id ≠ some did) ∧
    ∀ b : Bool,
      (CategoryScreen.deleteFood did
        ⟨b, some (encodeFoods (pre ++ old :: post))⟩).foodsFile
        = some (encodeFoods (pre ++ post)) := by
  have hd := handleDeleteList_decomp did pre old post hold hpre hpost
  refine ⟨hd, by rw [hd]; simp; omega, handleDeleteList_not_mem did _, ?_⟩
  intro b
  simp only [CategoryScreen.deleteFood, CategoryScreen.loadFoods,
    decodeFoods_encodeFoods, Option.getD_some, if_true]
  rw [show List.filter (fun food => decide (food.id ≠ some did)) (pre ++ old :: post)
      = handleDeleteList did (pre ++ old :: post) from rfl, hd]

/-- Claim C3, witness for the amended theorem at a concrete input. -/
theorem C3_witness :
    handleDeleteList "5" ([mkFood "1" "A"] ++ mkFood "5" "B" :: [mkFood "2" "C"])
      = [mkFood "1" "A"] ++ [mkFood "2" "C"] :=
  (C3_amended "5" [mkFood "1" "A"] [mkFood "2" "C"] (mkFood "5" "B")
    (by decide) (by decide) (by decide)).1

/-- Claim C4: the list screen filter returns exactly the records whose
name contains the search text as a case-insensitive substring, and the
empty search text matches every record. -/
theorem C4_filter_characterisation (foods : List FoodData) (q : String) :
    CategoryScreen.filteredFoods foods q
      = foods.filter (fun f => decide (specMatchesSearch f.foodName q)) ∧
    CategoryScreen.filteredFoods foods "" = foods := by
  constructor
  · apply List.filter_congr
    intro f _
    apply Bool.eq_iff_iff.mpr
    rw [jsIncludes_iff, decide_eq_true_eq]
    exact Iff.rfl
  · rw [CategoryScreen.filteredFoods]
    apply List.filter_eq_self.mpr
    intro f _
    exact jsIncludes_empty (jsToLower f.foodName)

/-- Claim C5, counterexample.  The claim asserts the create-on-missing
behaviour for every load operation in the system, including the one used
by the list and search view; but the list-screen load returns the empty
sequence without creating the document or the directory. -/
theorem C5_claim_cex :
    (CategoryScreen.loadFoods true ⟨false, none⟩).1 = ([] : List FoodData) ∧
    ((CategoryScreen.loadFoods true ⟨false, none⟩).2).foodsFile = none ∧
    ((CategoryScreen.loadFoods true ⟨false, none⟩).2).dirExists = false :=
  ⟨rfl, rfl, rfl⟩

/-- Claim C5, amended.  When the document does not exist, the form
screen load creates the directory, writes an empty array document at the
fixed path and returns the empty sequence; the list-screen load also
returns the empty sequence but leaves the filesystem untouched, creating
nothing. -/
theorem C5_amended (st : FsState) (hmiss : st.foodsFile = none) :
    loadFoods true st = ([], { dirExists := true, foodsFile := some (encodeFoods []) }) ∧
    CategoryScreen.loadFoods true st = ([], st) := by
  refine ⟨loadFoods_missing st hmiss, ?_⟩
  simp [CategoryScreen.loadFoods, hmiss]

/-- Claim C5, witness for the amended theorem at a concrete input. -/
theorem C5_witness :
    loadFoods true ⟨false, none⟩
      = ([], { dirExists := true, foodsFile := some (encodeFoods []) }) ∧
    CategoryScreen.loadFoods true ⟨false, none⟩ = ([], ⟨false, none⟩) :=
  C5_amended ⟨false, none⟩ rfl

/-- Claim C6: for every form input whose name is empty after trimming,
or whose weight is absent or does not convert to a number, submission is
rejected before any storage operation: no collection is handed to the
store (the list result is none) and the persisted state is returned
unchanged by the whole handler. -/
theorem C6_invalid_no_write (fs : FormState) (newId now : String) (st : FsState)
    (foods : List FoodData)
    (h : jsTrim fs.foodName = "" ∨ fs.weight = "" ∨ jsNumberOk fs.weight = false) :
    handleSubmitList fs newId now foods = none ∧
    handleSubmit fs newId now st = st := by
  have hval := validateForm_eq_false fs h
  exact ⟨handleSubmitList_invalid fs newId now foods hval,
    handleSubmit_invalid fs newId now st hval⟩

/-- Claim C6, witness: an empty name with a numeric weight is rejected
over the empty store state, which stays exactly as it was. -/
theorem C6_witness :
    handleSubmitList (mkCreateForm "" "100") "9" "9" [] = none ∧
    handleSubmit (mkCreateForm "" "100") "9" "9" ⟨false, none⟩ = ⟨false, none⟩ :=
  C6_invalid_no_write (mkCreateForm "" "100") "9" "9" ⟨false, none⟩ []
    (Or.inl (by decide))

/-- Claim C7: for every well-formed persisted document (one whose
denotation is a record sequence), loading returns that sequence, saving
it back writes its serialization at the fixed path, and the rewritten
document is equivalent to the original: it denotes the same sequence of
records with the same field values. -/
theorem C7_roundtrip (st : FsState) (doc : Json) (l : List FoodData)
    (hdoc : st.foodsFile = some doc) (hl : decodeFoods doc = some l) :
    loadFoods true st = (l, ensureDirectoryExists st) ∧
    saveFoods true l (ensureDirectoryExists st)
      = some { dirExists := true, foodsFile := some (encodeFoods l) } ∧
    decodeFoods (encodeFoods l) = some l := by
  refine ⟨loadFoods_of_decode st doc l hdoc hl, ?_, decodeFoods_encodeFoods l⟩
  simp [saveFoods, ensureDirectoryExists]

/-- Claim C7, witness at a concrete one-record document. -/
theorem C7_witness :
    loadFoods true ⟨true, some (encodeFoods [mkFood "3" "Apple"])⟩
      = ([mkFood "3" "Apple"],
         ensureDirectoryExists ⟨true, some (encodeFoods [mkFood "3" "Apple"])⟩) ∧
    saveFoods true [mkFood "3" "Apple"]
        (ensureDirectoryExists ⟨true, some (encodeFoods [mkFood "3" "Apple"])⟩)
      = some { dirExists := true,
               foodsFile := some (encodeFoods [mkFood "3" "Apple"]) } ∧
    decodeFoods (encodeFoods [mkFood "3" "Apple"]) = some [mkFood "3" "Apple"] :=
  C7_roundtrip ⟨true, some (encodeFoods [mkFood "3" "Apple"])⟩
    (encodeFoods [mkFood "3" "Apple"]) [mkFood "3" "Apple"] rfl rfl

/-- Claim C8: a failing underlying read is swallowed by loadFoods, which
returns the empty collection with no surfaced error (the document is
left as it was, only the directory is ensured); a failing underlying
write makes saveFoods re-raise after catching, so the failure reaches
the caller. -/
theorem C8_failure_handling (st : FsState) (doc : Json) (foods : List FoodData)
    (hdoc : st.foodsFile = some doc) :
    loadFoods false st = ([], ensureDirectoryExists st) ∧
    saveFoods false foods st = none := by
  constructor
  · simp [loadFoods, ensureDirectoryExists, hdoc]
  · simp [saveFoods]

/-- Claim C8, witness at a concrete store state. -/
theorem C8_witness :
    loadFoods false ⟨true, some (encodeFoods [])⟩
      = ([], ensureDirectoryExists ⟨true, some (encodeFoods [])⟩) ∧
    saveFoods false [mkFood "3" "Apple"] ⟨true, some (encodeFoods [])⟩ = none :=
  C8_failure_handling ⟨true, some (encodeFoods [])⟩ (encodeFoods [])
    [mkFood "3" "Apple"] rfl

/-- Claim C9, counterexample.  The claim asserts that every operation
preserves uniqueness of ids across the collection, but create mints its
id from Date.now without any freshness check: submitting a valid create
form at timestamp 8 over a collection that already holds id 8 produces a
collection with a duplicated id. -/
theorem C9_claim_cex :
    (List.map FoodData.id [mkFood "8" "Apple"]).Nodup ∧
    handleSubmitList (mkCreateForm "Tart" "50") "8" "8" [mkFood "8" "Apple"]
      = some [mkFood "8" "Apple", buildRecord (mkCreateForm "Tart" "50") "8" "8"] ∧
    ¬ (List.map FoodData.id
        [mkFood "8" "Apple", buildRecord (mkCreateForm "Tart" "50") "8" "8"]).Nodup := by
  decide

/-- Claim C9, amended.  The id of the record saved by an edit submission
is exactly the supplied id, so a record id never changes across edits;
an edit leaves the id sequence of the collection unchanged, hence
preserves uniqueness; a delete preserves uniqueness of ids; and a create
preserves uniqueness provided the freshly minted timestamp id is not
already present in the collection, a freshness condition the code does
not itself enforce. -/
theorem C9_amended :
    (∀ (fs : FormState) (newId now eid : String), editId fs = some eid →
        (buildRecord fs newId now).id = some eid) ∧
    (∀ (fs : FormState) (newId now eid : String) (foods : List FoodData),
        validateForm fs = true → editId fs = some eid →
        handleSubmitList fs newId now foods
          = some (replaceById foods eid (buildRecord fs newId now)) ∧
        (replaceById foods eid (buildRecord fs newId now)).map FoodData.id
          = foods.map FoodData.id) ∧
    (∀ (did : String) (foods : List FoodData), (foods.map FoodData.id).Nodup →
        ((handleDeleteList did foods).map FoodData.id).Nodup) ∧
    (∀ (fs : FormState) (newId now : String) (foods : List FoodData),
        validateForm fs = true → editId fs = none →
        some newId ∉ foods.map FoodData.id → (foods.map FoodData.id).Nodup →
        ((foods ++ [buildRecord fs newId now]).map FoodData.id).Nodup) := by
  refine ⟨fun fs newId now eid heid => buildRecord_id_edit fs newId now eid heid,
    ?_, ?_, ?_⟩
  · intro fs newId now eid foods hval heid
    exact ⟨handleSubmitList_edit fs newId now foods eid hval heid,
      replaceById_map_id foods eid _ (buildRecord_id_edit fs newId now eid heid)⟩
  · intro did foods h
    exact handleDeleteList_ids_nodup did foods h
  · intro fs newId now foods hval hnew hfresh hnodup
    rw [List.map_append]
    have hsing : List.map FoodData.id [buildRecord fs newId now] = [some newId] := by
      simp [buildRecord_id_create fs newId now hnew]
    rw [hsing, List.nodup_append]
    refine ⟨hnodup, List.nodup_singleton _, ?_⟩
    intro a ha hb
    simp only [List.mem_singleton] at hb
    rw [hb] at ha
    exact hfresh ha

/-- Claim C9, witness instantiating the amended theorem at concrete
inputs: an edit keeps its id, a delete on a duplicate-free collection
stays duplicate-free, and a create with a fresh timestamp id stays
duplicate-free. -/
theorem C9_witness :
    (buildRecord (mkEditForm (mkFood "5" "A") "B" "70") "9" "9").id = some "5" ∧
    ((handleDeleteList "5" [mkFood "5" "A", mkFood "6" "B"]).map FoodData.id).Nodup ∧
    (([mkFood "6" "B"] ++ [buildRecord (mkCreateForm "C" "80") "9" "9"]).map
        FoodData.id).Nodup :=
  ⟨C9_amended.1 (mkEditForm (mkFood "5" "A") "B" "70") "9" "9" "5" (by decide),
   C9_amended.2.2.1 "5" [mkFood "5" "A", mkFood "6" "B"] (by decide),
   C9_amended.2.2.2 (mkCreateForm "C" "80") "9" "9" [mkFood "6" "B"]
     (by decide) (by decide) (by decide) (by decide)⟩

/-- Claim C10: when the collection holds no record with the supplied
edit id, a valid submission in edit mode finds index -1, mutates
nothing, and saves the collection exactly as loaded; the handler then
reports success, so the edited record is neither updated nor appended
and no error is raised. -/
theorem C10_edit_missing_id (fs : FormState) (newId now eid : String)
    (foods : List FoodData) (hval : validateForm fs = true)
    (heid : editId fs = some eid) (habsent : ∀ f ∈ foods, f.id ≠ some eid) :
    handleSubmitList fs newId now foods = some foods := by
  rw [handleSubmitList_edit fs newId now foods eid hval heid,
    replaceById_not_found foods eid _ habsent]

/-- Claim C10, witness: editing a record of id 5 over a collection that
only holds id 1 saves the collection unchanged. -/
theorem C10_witness :
    handleSubmitList (mkEditForm (mkFood "5" "A") "Pie" "100") "9" "9"
        [mkFood "1" "B"] = some [mkFood "1" "B"] :=
  C10_edit_missing_id (mkEditForm (mkFood "5" "A") "Pie" "100") "9" "9" "5"
    [mkFood "1" "B"] (by decide) (by decide) (by decide)

end FoodApp
